import Mathlib

/-!
Shallow embedding of `src/index.mjs` (axios-node-streams): the `flattenObject`
function and the `json2csv` Transform stream (its `transform` buffering and its
`flush` phase), together with theorems settling the frozen claims about them.

JSON values are modelled as an inductive type; objects are ordered association
lists (JS `for..in` enumerates string keys in insertion order; objects produced
by `JSON.parse` have distinct keys, duplicates having been collapsed to the
last occurrence during parsing). JSON numbers are modelled as integers: every
document the claims mention carries integer numerics, and `Number.prototype.toString`
agrees with integer printing on them.
-/

namespace AxiosNodeStreams

/-- A parsed JSON value as JavaScript sees it after `JSON.parse`. -/
inductive JsonVal where
  | str  (s : String)
  | num  (n : Int)
  | bool (b : Bool)
  | null
  | arr  (elems : List JsonVal)
  | obj  (fields : List (String × JsonVal))

namespace JsonVal

/-- JS property assignment `res[k] = v` on a plain object: overwrite in place
if the key exists, else append (insertion order preserved). -/
def assocSet (res : List (String × JsonVal)) (k : String) (v : JsonVal) :
    List (String × JsonVal) :=
  match res with
  | [] => [(k, v)]
  | (k', v') :: rest =>
      if k' = k then (k, v) :: rest else (k', v') :: assocSet rest k v

/-- The dotted path: `parent ? parent + "." + key : key` (source line 18).
The empty string is the only falsy JS string. -/
def propName (parent key : String) : String :=
  if parent = "" then key else parent ++ "." ++ key

/-- The body of `flattenObject` (source lines 16-30): iterate the entries of
the current object; a value that is object-typed, non-null and not an array is
recursed into with the extended path, everything else is assigned as-is into
the shared accumulator `res`.  The guard
`typeof v === "object" && v !== null && !Array.isArray(v)` holds exactly for
the `obj` constructor here (`null` and arrays are their own constructors). -/
def flattenFields : List (String × JsonVal) → String → List (String × JsonVal) →
    List (String × JsonVal)
  | [], _, res => res
  | (k, v) :: rest, parent, res =>
      match v with
      | .obj fs => flattenFields rest parent (flattenFields fs (propName parent k) res)
      | _ => flattenFields rest parent (assocSet res (propName parent k) v)

/-- `flattenObject(obj, parent, res)`: `for (let key in obj)` enumerates an
object's own fields in insertion order; on any non-object record it enumerates
nothing of relevance to this pipeline (array and string index enumeration only
arises for non-object `results` elements, which no claim exercises), so the
accumulator is returned unchanged. -/
def flattenObject (v : JsonVal) (parent : String) (res : List (String × JsonVal)) :
    List (String × JsonVal) :=
  match v with
  | .obj fs => flattenFields fs parent res
  | _ => res

end JsonVal

end AxiosNodeStreams

namespace AxiosNodeStreams

open JsonVal

mutual

/-- String conversion as JS performs it when a value lands in a CSV cell:
arrays print via `Array.prototype.toString` (comma-join, `null` rendered
empty), objects print as `[object Object]`. -/
def jsToString : JsonVal → String
  | .str s => s
  | .num n => toString n
  | .bool b => if b then "true" else "false"
  | .null => "null"
  | .obj _ => "[object Object]"
  | .arr es => jsArrJoin es

/-- Comma-join of array elements, `null` rendered empty. -/
def jsArrJoin : List JsonVal → String
  | [] => ""
  | v :: rest =>
      (match v with | .null => "" | _ => jsToString v) ++
      (match rest with | [] => "" | _ => "," ++ jsArrJoin rest)

end

/-- JS falsiness of a parsed JSON value, as tested by `row[header] || ""`
(source line 65): `0`, `false`, `""` and `null` are falsy. -/
def jsFalsy : JsonVal → Bool
  | .num n => n = 0
  | .bool b => !b
  | .str s => s = ""
  | .null => true
  | _ => false

/-- Property read `json.results` (source line 44): present only on plain
objects; first match suffices since `JSON.parse` output has distinct keys.
(`null` receivers are handled before this is consulted, mirroring the throw
site; arrays, strings, numbers and booleans have no `results` property.) -/
def getField (v : JsonVal) (name : String) : Option JsonVal :=
  match v with
  | .obj fs => fs.lookup name
  | _ => none

/-- The value of `results.length` (`none` models `undefined`): arrays and
strings expose their length, a plain object exposes whatever its own `length`
field holds, numbers and booleans have no such property. The `null` receiver
(which throws) is handled by the caller. -/
def lenVal : JsonVal → Option JsonVal
  | .arr es => some (.num es.length)
  | .str s => some (.num s.length)
  | .obj fs => fs.lookup "length"
  | _ => none

/-- JS comparison `x > 0` for the length value (`none` = `undefined`, which
compares false via NaN). Strings coerce through `Number`; only integral
numeric strings are modelled (`Number` of anything else compares false here —
an approximation irrelevant to any reachable document). Arrays/objects in
`length` position are likewise approximated to false. -/
def jsGtZero : Option JsonVal → Bool
  | some (.num n) => 0 < n
  | some (.bool b) => b
  | some (.str s) => match s.toInt? with | some n => 0 < n | none => false
  | _ => false

/-- Header accumulation (source lines 54-58): scan each flat record's keys in
order, appending any key not already collected. -/
def collectKeys (headers : List String) (row : List (String × JsonVal)) :
    List String :=
  row.foldl (fun hs p => if hs.contains p.1 then hs else hs ++ [p.1]) headers

/-- The full header pass: every record is flattened and scanned before any
row is emitted. -/
def collectHeaders (rows : List (List (String × JsonVal))) : List String :=
  rows.foldl collectKeys []

/-- One CSV cell (source line 65): `row[header] || ""` — empty when the key
is absent (`undefined`) or its value is falsy, otherwise the value's JS
string rendering (materialised by `Array.prototype.join`). -/
def cellOf (row : List (String × JsonVal)) (header : String) : String :=
  match row.lookup header with
  | none => ""
  | some v => if jsFalsy v then "" else jsToString v

/-- The header chunk (source line 61): `headers.join(",") + "\n"`. -/
def headerChunk (headers : List String) : String :=
  String.intercalate "," headers ++ "\n"

/-- One data-row chunk (source lines 64-66): values projected onto the
headers, comma-joined, newline-terminated. -/
def rowChunk (headers : List String) (row : List (String × JsonVal)) : String :=
  String.intercalate "," (headers.map (cellOf row)) ++ "\n"

/-- The chunks pushed for a non-empty `results` array (source lines 48-67):
flatten every record (fresh accumulator per record, `res = {}` default),
collect the headers across all flat records, then push the header chunk
followed by one row chunk per record in order. -/
def emitCsv (results : List JsonVal) : List String :=
  let rows := results.map (fun r => JsonVal.flattenObject r "" [])
  let headers := collectHeaders rows
  headerChunk headers :: rows.map (rowChunk headers)

/-- Observable outcome of the `flush` callback: the chunks pushed (in push
order) and the error handed to `callback`, if any. -/
structure FlushOut where
  pushed : List String
  error  : Option String
  deriving Repr, DecidableEq

/-- The `flush` body after a successful `JSON.parse` (source lines 43-72).
`json.results` throws on a `null` document and on an absent `results`
(`undefined.length` / `null.length` raise TypeError, caught and passed to
`callback(err)` with nothing pushed); a length check that fails skips the
`if` body silently; a passing length check runs `results.forEach`, which is
a function only on arrays. -/
def json2csvFlushParsed (json : JsonVal) : FlushOut :=
  match json with
  | .null => ⟨[], some "TypeError: Cannot read properties of null (reading results)"⟩
  | _ =>
    match getField json "results" with
    | none => ⟨[], some "TypeError: Cannot read properties of undefined (reading length)"⟩
    | some .null => ⟨[], some "TypeError: Cannot read properties of null (reading length)"⟩
    | some r =>
      if jsGtZero (lenVal r) then
        match r with
        | .arr es => ⟨emitCsv es, none⟩
        | _ => ⟨[], some "TypeError: results.forEach is not a function"⟩
      else ⟨[], none⟩

/-- The ACCUMULATING phase (source lines 37-40): each chunk's text is
appended to `jsonBuffer` in arrival order. -/
def accumulate (chunks : List String) : String :=
  chunks.foldl (fun buf c => buf ++ c) ""

/-- A whole run of the Transform stage on a chunk sequence, parameterised by
the `JSON.parse` oracle (a JS builtin, not repository code): buffer all
chunks, then flush — a parse failure reaches `callback(err)` with nothing
pushed. -/
def json2csvRun (parse : String → Except String JsonVal) (chunks : List String) :
    FlushOut :=
  match parse (accumulate chunks) with
  | .error e => ⟨[], some e⟩
  | .ok json => json2csvFlushParsed json

/-- The guard of the recursion branch in `flattenObject`:
`typeof v === "object" && v !== null && !Array.isArray(v)`. -/
def isPlainObj : JsonVal → Bool
  | .obj _ => true
  | _ => false

/-! ### Helper lemmas -/

theorem flattenFields_nil (parent : String) (res : List (String × JsonVal)) :
    JsonVal.flattenFields [] parent res = res := by
  simp [JsonVal.flattenFields]

theorem flattenFields_cons_obj (k : String) (fs rest : List (String × JsonVal))
    (parent : String) (res : List (String × JsonVal)) :
    JsonVal.flattenFields ((k, JsonVal.obj fs) :: rest) parent res =
      JsonVal.flattenFields rest parent
        (JsonVal.flattenFields fs (JsonVal.propName parent k) res) := by
  simp [JsonVal.flattenFields]

theorem flattenFields_cons_leaf (k : String) (v : JsonVal)
    (rest : List (String × JsonVal)) (parent : String)
    (res : List (String × JsonVal)) (hv : isPlainObj v = false) :
    JsonVal.flattenFields ((k, v) :: rest) parent res =
      JsonVal.flattenFields rest parent
        (JsonVal.assocSet res (JsonVal.propName parent k) v) := by
  cases v <;> simp_all [JsonVal.flattenFields, isPlainObj]

theorem assocSet_of_not_mem (res : List (String × JsonVal)) (k : String)
    (v : JsonVal) (h : k ∉ res.map Prod.fst) :
    JsonVal.assocSet res k v = res ++ [(k, v)] := by
  induction res with
  | nil => simp [JsonVal.assocSet]
  | cons p rest ih =>
    simp only [List.map_cons, List.mem_cons] at h
    push_neg at h
    simp [JsonVal.assocSet, Ne.symm h.1, ih h.2]

theorem flattenFields_flat (fields : List (String × JsonVal)) :
    ∀ acc : List (String × JsonVal),
    (∀ p ∈ fields, isPlainObj p.2 = false) →
    (fields.map Prod.fst).Nodup →
    (∀ k ∈ fields.map Prod.fst, k ∉ acc.map Prod.fst) →
    JsonVal.flattenFields fields "" acc = acc ++ fields := by
  induction fields with
  | nil => intro acc _ _ _; simp [JsonVal.flattenFields]
  | cons p rest ih =>
    intro acc hflat hnd hdisj
    obtain ⟨k, v⟩ := p
    have hv : isPlainObj v = false := hflat (k, v) (List.mem_cons_self _ _)
    have hk : k ∉ acc.map Prod.fst := hdisj k (by simp)
    have hpn : JsonVal.propName "" k = k := by simp [JsonVal.propName]
    rw [flattenFields_cons_leaf k v rest "" acc hv, hpn,
      assocSet_of_not_mem acc k v hk]
    have hnd' : (rest.map Prod.fst).Nodup := by
      simpa using hnd.of_cons
    have hnd0 : (k :: rest.map Prod.fst).Nodup := hnd
    have hkrest : k ∉ rest.map Prod.fst := (List.nodup_cons.mp hnd0).1
    rw [ih (acc ++ [(k, v)]) (fun q hq => hflat q (List.mem_cons_of_mem _ hq)) hnd'
      (by
        intro k' hk'
        simp only [List.map_append, List.mem_append, List.map_cons] at *
        push_neg
        refine ⟨hdisj k' (by simp [hk']), ?_⟩
        simp only [List.map_nil, List.mem_singleton]
        rintro rfl
        exact hkrest hk')]
    simp

theorem flushParsed_arr (j : JsonVal) (es : List JsonVal)
    (hres : getField j "results" = some (JsonVal.arr es)) (hne : es ≠ []) :
    json2csvFlushParsed j = ⟨emitCsv es, none⟩ := by
  cases j <;> simp [getField] at hres
  case obj fs =>
    have hlen : jsGtZero (lenVal (JsonVal.arr es)) = true := by
      simp [lenVal, jsGtZero]
      exact_mod_cast List.length_pos.mpr hne
    simp [json2csvFlushParsed, getField, hres, hlen]

theorem collectKeys_cons (p : String × JsonVal) (rest : List (String × JsonVal))
    (hs : List String) :
    collectKeys hs (p :: rest) =
      collectKeys (if hs.contains p.1 then hs else hs ++ [p.1]) rest := by
  simp [collectKeys]

theorem mem_collectKeys (row : List (String × JsonVal)) :
    ∀ (hs : List String) (k : String),
    k ∈ collectKeys hs row ↔ k ∈ hs ∨ k ∈ row.map Prod.fst := by
  induction row with
  | nil => intro hs k; simp [collectKeys]
  | cons p rest ih =>
    intro hs k
    rw [collectKeys_cons]
    by_cases hm : p.1 ∈ hs
    · rw [if_pos (List.elem_iff.mpr hm), ih]
      simp only [List.map_cons, List.mem_cons]
      constructor
      · rintro (h | h)
        · exact Or.inl h
        · exact Or.inr (Or.inr h)
      · rintro (h | rfl | h)
        · exact Or.inl h
        · exact Or.inl hm
        · exact Or.inr h
    · rw [if_neg (fun hc => hm (List.elem_iff.mp hc)), ih]
      simp only [List.mem_append, List.mem_singleton, List.map_cons,
        List.mem_cons]
      tauto

theorem nodup_collectKeys (row : List (String × JsonVal)) :
    ∀ hs : List String, hs.Nodup → (collectKeys hs row).Nodup := by
  induction row with
  | nil => intro hs h; simpa [collectKeys] using h
  | cons p rest ih =>
    intro hs h
    rw [collectKeys_cons]
    by_cases hm : p.1 ∈ hs
    · rw [if_pos (List.elem_iff.mpr hm)]
      exact ih hs h
    · rw [if_neg (fun hc => hm (List.elem_iff.mp hc))]
      refine ih _ ?_
      simp [List.nodup_append, h, hm]

theorem collectKeys_extends (row : List (String × JsonVal)) :
    ∀ hs : List String, ∃ t, collectKeys hs row = hs ++ t := by
  induction row with
  | nil => intro hs; exact ⟨[], by simp [collectKeys]⟩
  | cons p rest ih =>
    intro hs
    rw [collectKeys_cons]
    by_cases hm : p.1 ∈ hs
    · rw [if_pos (List.elem_iff.mpr hm)]
      exact ih hs
    · rw [if_neg (fun hc => hm (List.elem_iff.mp hc))]
      obtain ⟨t, ht⟩ := ih (hs ++ [p.1])
      exact ⟨p.1 :: t, by simpa using ht⟩

theorem mem_foldl_collectKeys (rows : List (List (String × JsonVal))) :
    ∀ (hs : List String) (k : String),
    k ∈ rows.foldl collectKeys hs ↔
      k ∈ hs ∨ ∃ row ∈ rows, k ∈ row.map Prod.fst := by
  induction rows with
  | nil => intro hs k; simp
  | cons row rest ih =>
    intro hs k
    simp only [List.foldl_cons]
    rw [ih, mem_collectKeys]
    constructor
    · rintro ((h | h) | ⟨r, hr, hk⟩)
      · exact Or.inl h
      · exact Or.inr ⟨row, by simp, h⟩
      · exact Or.inr ⟨r, by simp [hr], hk⟩
    · rintro (h | ⟨r, hr, hk⟩)
      · exact Or.inl (Or.inl h)
      · rcases List.mem_cons.mp hr with rfl | hr
        · exact Or.inl (Or.inr hk)
        · exact Or.inr ⟨r, hr, hk⟩

theorem nodup_foldl_collectKeys (rows : List (List (String × JsonVal))) :
    ∀ hs : List String, hs.Nodup → (rows.foldl collectKeys hs).Nodup := by
  induction rows with
  | nil => intro hs h; simpa using h
  | cons row rest ih =>
    intro hs h
    simpa using ih (collectKeys hs row) (nodup_collectKeys row hs h)

theorem flattenFields_drop_emptyObj (pre : List (String × JsonVal)) (k : String)
    (post : List (String × JsonVal)) (parent : String) :
    ∀ res : List (String × JsonVal),
    JsonVal.flattenFields (pre ++ (k, JsonVal.obj []) :: post) parent res =
      JsonVal.flattenFields (pre ++ post) parent res := by
  induction pre with
  | nil =>
    intro res
    simp only [List.nil_append]
    rw [flattenFields_cons_obj, flattenFields_nil]
  | cons p rest ih =>
    intro res
    obtain ⟨k', v'⟩ := p
    cases v' <;> simp only [List.cons_append] <;>
      first
      | rw [flattenFields_cons_obj, flattenFields_cons_obj, ih]
      | rw [flattenFields_cons_leaf _ _ _ _ _ (by simp [isPlainObj]),
          flattenFields_cons_leaf _ _ _ _ _ (by simp [isPlainObj]), ih]

/-! ### Claims -/

/-- C6: the Flattener maps every nested key whose value is an object (not
null, not an array) by recursing with the dot-joined path prefix, merging
into the shared accumulator; for `\x7ba: \x7bb: 1, c: \x7bd: 2\x7d\x7d\x7d`
the output is exactly `\x7b"a.b": 1, "a.c.d": 2\x7d`. -/
theorem C6_flatten_recursion :
    (∀ (k : String) (fs rest : List (String × JsonVal)) (parent : String)
        (res : List (String × JsonVal)),
      JsonVal.flattenFields ((k, JsonVal.obj fs) :: rest) parent res =
        JsonVal.flattenFields rest parent
          (JsonVal.flattenFields fs (JsonVal.propName parent k) res)) ∧
    (∀ parent k : String,
      JsonVal.propName parent k =
        if parent = "" then k else parent ++ "." ++ k) ∧
    JsonVal.flattenObject
        (JsonVal.obj [("a", JsonVal.obj
          [("b", JsonVal.num 1), ("c", JsonVal.obj [("d", JsonVal.num 2)])])])
        "" [] =
      [("a.b", JsonVal.num 1), ("a.c.d", JsonVal.num 2)] := by
  refine ⟨flattenFields_cons_obj, fun parent k => rfl, ?_⟩
  simp [JsonVal.flattenObject, JsonVal.flattenFields, JsonVal.propName,
    JsonVal.assocSet]

/-- C7: the Flattener never descends into arrays — a key whose value is an
array (or any non-object scalar, or null) is assigned as-is to the
dotted-path key; for `\x7ba: [1,2,3]\x7d` the output is
`\x7b"a": [1,2,3]\x7d`, a single cell value. -/
theorem C7_array_non_descent :
    (∀ (k : String) (v : JsonVal) (rest : List (String × JsonVal))
        (parent : String) (res : List (String × JsonVal)),
      isPlainObj v = false →
      JsonVal.flattenFields ((k, v) :: rest) parent res =
        JsonVal.flattenFields rest parent
          (JsonVal.assocSet res (JsonVal.propName parent k) v)) ∧
    (∀ es : List JsonVal, isPlainObj (JsonVal.arr es) = false) ∧
    JsonVal.flattenObject
        (JsonVal.obj [("a", JsonVal.arr [JsonVal.num 1, JsonVal.num 2, JsonVal.num 3])])
        "" [] =
      [("a", JsonVal.arr [JsonVal.num 1, JsonVal.num 2, JsonVal.num 3])] := by
  refine ⟨fun k v rest parent res hv =>
      flattenFields_cons_leaf k v rest parent res hv,
    fun es => rfl, ?_⟩
  simp [JsonVal.flattenObject, JsonVal.flattenFields, JsonVal.propName,
    JsonVal.assocSet]

/-- C7 witness: the array branch instantiated at `\x7ba: [1,2,3]\x7d` with an
empty tail and accumulator. -/
theorem C7_array_non_descent_witness :
    isPlainObj (JsonVal.arr [JsonVal.num 1, JsonVal.num 2, JsonVal.num 3]) = false ∧
    JsonVal.flattenFields
        [("a", JsonVal.arr [JsonVal.num 1, JsonVal.num 2, JsonVal.num 3])] "" [] =
      JsonVal.flattenFields [] ""
        (JsonVal.assocSet [] (JsonVal.propName "" "a")
          (JsonVal.arr [JsonVal.num 1, JsonVal.num 2, JsonVal.num 3])) :=
  ⟨rfl, C7_array_non_descent.1 "a"
    (JsonVal.arr [JsonVal.num 1, JsonVal.num 2, JsonVal.num 3]) [] "" [] rfl⟩

/-- C8: flattening is the identity on depth-0 records — if no value of the
record is a non-null, non-array object, the Flattener returns the record
unchanged (records are JSON-parsed objects, so their keys are distinct). -/
theorem C8_flatten_identity (fields : List (String × JsonVal))
    (hflat : ∀ p ∈ fields, isPlainObj p.2 = false)
    (hnd : (fields.map Prod.fst).Nodup) :
    JsonVal.flattenObject (JsonVal.obj fields) "" [] = fields := by
  simpa [JsonVal.flattenObject] using
    flattenFields_flat fields [] hflat hnd (by simp)

/-- C8 witness: a concrete depth-0 record with scalar, string, array and
null values flattens to itself. -/
theorem C8_flatten_identity_witness :
    (∀ p ∈ [("a", JsonVal.num 1), ("b", JsonVal.str "x"),
        ("c", JsonVal.arr [JsonVal.num 2]), ("d", JsonVal.null)],
      isPlainObj p.2 = false) ∧
    (([("a", JsonVal.num 1), ("b", JsonVal.str "x"),
        ("c", JsonVal.arr [JsonVal.num 2]), ("d", JsonVal.null)].map
        (Prod.fst (α := String) (β := JsonVal))).Nodup) ∧
    JsonVal.flattenObject
        (JsonVal.obj [("a", JsonVal.num 1), ("b", JsonVal.str "x"),
          ("c", JsonVal.arr [JsonVal.num 2]), ("d", JsonVal.null)]) "" [] =
      [("a", JsonVal.num 1), ("b", JsonVal.str "x"),
        ("c", JsonVal.arr [JsonVal.num 2]), ("d", JsonVal.null)] :=
  ⟨by intro p hp; fin_cases hp <;> rfl,
   by simp,
   C8_flatten_identity _ (by intro p hp; fin_cases hp <;> rfl) (by simp)⟩

/-- C10 counterexample: the record `\x7b"a": \x7b\x7d, "a.b": 1\x7d` contains
the key `"a"` with an empty-object value, yet its flat record does contain a
key with prefix `"a."` — the literal dotted key `"a.b"` of a sibling entry —
refuting the claim that no such key can remain. -/
theorem C10_counterexample :
    JsonVal.flattenObject
        (JsonVal.obj [("a", JsonVal.obj []), ("a.b", JsonVal.num 1)]) "" [] =
      [("a.b", JsonVal.num 1)] ∧
    "a.b" = "a." ++ "b" := by
  refine ⟨?_, rfl⟩
  simp [JsonVal.flattenObject, JsonVal.flattenFields, JsonVal.propName,
    JsonVal.assocSet]

/-- C10 (amended): an entry whose value is an empty object contributes
nothing to the flat record — flattening a field list is unchanged when such
an entry is dropped — so the key itself never appears and no dotted
extension of it arises from that entry (a key with that prefix can still
come from other entries whose literal names contain dots); in particular
`\x7b"a": \x7b\x7d, "b": 2\x7d` flattens to `\x7b"b": 2\x7d` with no `"a"`
key. -/
theorem C10_empty_object_dropped :
    (∀ (pre : List (String × JsonVal)) (k : String)
        (post : List (String × JsonVal)) (parent : String)
        (res : List (String × JsonVal)),
      JsonVal.flattenFields (pre ++ (k, JsonVal.obj []) :: post) parent res =
        JsonVal.flattenFields (pre ++ post) parent res) ∧
    JsonVal.flattenObject
        (JsonVal.obj [("a", JsonVal.obj []), ("b", JsonVal.num 2)]) "" [] =
      [("b", JsonVal.num 2)] := by
  refine ⟨fun pre k post parent res =>
      flattenFields_drop_emptyObj pre k post parent res, ?_⟩
  simp [JsonVal.flattenObject, JsonVal.flattenFields, JsonVal.propName,
    JsonVal.assocSet]

/-- C2 counterexample: the record `\x7b"a": 0\x7d` has the key `"a"` present
with value `0`, yet its cell is the empty string (`row[header] || ""`
discards falsy values), so the emitted row is `"\n"` rather than `"0\n"`. -/
theorem C2_counterexample :
    json2csvFlushParsed
        (JsonVal.obj [("results", JsonVal.arr [JsonVal.obj [("a", JsonVal.num 0)]])]) =
      ⟨["a\n", "\n"], none⟩ ∧
    (JsonVal.flattenObject (JsonVal.obj [("a", JsonVal.num 0)]) "" []).lookup "a" =
      some (JsonVal.num 0) ∧
    "\n" ≠ "0\n" := by
  refine ⟨?_, ?_, by decide⟩
  · simp [json2csvFlushParsed, getField, lenVal, jsGtZero, emitCsv,
      JsonVal.flattenObject, JsonVal.flattenFields, JsonVal.propName,
      JsonVal.assocSet, collectHeaders, collectKeys, headerChunk, rowChunk,
      cellOf, jsFalsy, jsToString, String.intercalate, String.intercalate.go]
  · simp [JsonVal.flattenObject, JsonVal.flattenFields, JsonVal.propName,
      JsonVal.assocSet]

/-- C2 (amended): for every flat record and the final header set, the
emitted data row is the record's values projected positionally onto the
header set, comma-joined and newline-terminated, with the empty string
substituted for keys absent from the record and also for present keys
whose value is falsy (`0`, `false`, `null`, `""`); a present key with a
truthy value contributes its JS string rendering. -/
theorem C2_row_projection (es : List JsonVal) (hne : es ≠ []) :
    ∃ headers : List String,
      json2csvFlushParsed (JsonVal.obj [("results", JsonVal.arr es)]) =
        ⟨(String.intercalate "," headers ++ "\n") ::
            es.map (fun e =>
              String.intercalate ","
                (headers.map (fun h =>
                  match (JsonVal.flattenObject e "" []).lookup h with
                  | none => ""
                  | some v => if jsFalsy v then "" else jsToString v)) ++ "\n"),
          none⟩ := by
  refine ⟨collectHeaders (es.map (fun e => JsonVal.flattenObject e "" [])), ?_⟩
  rw [flushParsed_arr _ es (by simp [getField]) hne]
  simp only [emitCsv, headerChunk, rowChunk, cellOf, List.map_map]
  rfl

/-- C2 witness: the amended row projection at the one-record document
`\x7b"results": [\x7b"a": 1\x7d]\x7d`. -/
theorem C2_row_projection_witness :
    ([JsonVal.obj [("a", JsonVal.num 1)]] : List JsonVal) ≠ [] ∧
    ∃ headers : List String,
      json2csvFlushParsed
          (JsonVal.obj [("results", JsonVal.arr [JsonVal.obj [("a", JsonVal.num 1)]])]) =
        ⟨(String.intercalate "," headers ++ "\n") ::
            [JsonVal.obj [("a", JsonVal.num 1)]].map (fun e =>
              String.intercalate ","
                (headers.map (fun h =>
                  match (JsonVal.flattenObject e "" []).lookup h with
                  | none => ""
                  | some v => if jsFalsy v then "" else jsToString v)) ++ "\n"),
          none⟩ :=
  ⟨by simp, C2_row_projection [JsonVal.obj [("a", JsonVal.num 1)]] (by simp)⟩

/-- C3: whenever the buffered input fails to parse, the flush hands the
parse error to `callback`, aborting the run, and pushes no output chunk. -/
theorem C3_parse_failure (parse : String → Except String JsonVal)
    (chunks : List String) (e : String)
    (h : parse (accumulate chunks) = .error e) :
    json2csvRun parse chunks = ⟨[], some e⟩ := by
  simp [json2csvRun, h]

/-- C3 witness: a truncated buffer under a parse oracle that rejects it. -/
theorem C3_parse_failure_witness :
    (fun _ : String =>
        (Except.error "SyntaxError: Unexpected end of JSON input" :
          Except String JsonVal))
      (accumulate ["\x7b\"resu"]) =
      Except.error "SyntaxError: Unexpected end of JSON input" ∧
    json2csvRun
        (fun _ : String =>
          (Except.error "SyntaxError: Unexpected end of JSON input" :
            Except String JsonVal))
        ["\x7b\"resu"] =
      ⟨[], some "SyntaxError: Unexpected end of JSON input"⟩ :=
  ⟨rfl, C3_parse_failure _ ["\x7b\"resu"] _ rfl⟩

/-- C4: the header set is the ordered set of all distinct flat-record keys
across all records — a key is a header iff some flat record carries it, the
headers are distinct, keys contributed by a later record never disturb the
order already collected (first-seen order), every record is scanned before
any row is emitted (witnessed by `[\x7ba:1\x7d, \x7bb:2\x7d]` producing
header `a,b`, row 1 `1,` and row 2 `,2`), and every emitted row projects
exactly one cell per header. -/
theorem C4_header_set :
    (∀ (rows : List (List (String × JsonVal))) (k : String),
      k ∈ collectHeaders rows ↔ ∃ row ∈ rows, k ∈ row.map Prod.fst) ∧
    (∀ rows : List (List (String × JsonVal)), (collectHeaders rows).Nodup) ∧
    (∀ (rows : List (List (String × JsonVal)))
        (row : List (String × JsonVal)),
      ∃ t, collectHeaders (rows ++ [row]) = collectHeaders rows ++ t) ∧
    json2csvFlushParsed
        (JsonVal.obj [("results", JsonVal.arr
          [JsonVal.obj [("a", JsonVal.num 1)], JsonVal.obj [("b", JsonVal.num 2)]])]) =
      ⟨["a,b\n", "1,\n", ",2\n"], none⟩ ∧
    (∀ (headers : List String) (row : List (String × JsonVal)),
      (headers.map (cellOf row)).length = headers.length) := by
  refine ⟨?_, ?_, ?_, ?_, ?_⟩
  · intro rows k
    rw [collectHeaders, mem_foldl_collectKeys]
    simp
  · intro rows
    exact nodup_foldl_collectKeys rows [] List.nodup_nil
  · intro rows row
    simp only [collectHeaders, List.foldl_append, List.foldl_cons,
      List.foldl_nil]
    exact collectKeys_extends row _
  · simp [json2csvFlushParsed, getField, lenVal, jsGtZero, emitCsv,
      JsonVal.flattenObject, JsonVal.flattenFields, JsonVal.propName,
      JsonVal.assocSet, collectHeaders, collectKeys, headerChunk, rowChunk,
      cellOf, jsFalsy, jsToString, List.lookup, String.intercalate,
      String.intercalate.go]
    exact ⟨rfl, rfl⟩
  · intro headers row
    simp

/-- C5 counterexample: the valid document `\x7b"results": []\x7d` is
processed without error but yields zero chunks, not the claimed header row
followed by one row per element (which would be one chunk here). -/
theorem C5_counterexample :
    json2csvFlushParsed (JsonVal.obj [("results", JsonVal.arr [])]) =
      ⟨[], none⟩ ∧
    (json2csvFlushParsed (JsonVal.obj [("results", JsonVal.arr [])])).pushed.length ≠
      1 + ([] : List JsonVal).length := by
  exact ⟨rfl, by decide⟩

/-- C5 (amended): the Transform output depends only on the concatenation of
the input chunks — any two splittings with equal concatenation produce the
same output chunk sequence — and when the parsed document's `results` is a
nonempty array that sequence is the header row first, followed by exactly
one row per element of `results` in the array's original order. -/
theorem C5_chunk_invariance :
    (∀ (parse : String → Except String JsonVal) (c1 c2 : List String),
      accumulate c1 = accumulate c2 →
      json2csvRun parse c1 = json2csvRun parse c2) ∧
    (∀ (parse : String → Except String JsonVal) (chunks : List String)
        (j : JsonVal) (es : List JsonVal),
      parse (accumulate chunks) = .ok j →
      getField j "results" = some (JsonVal.arr es) → es ≠ [] →
      json2csvRun parse chunks =
        ⟨headerChunk (collectHeaders (es.map (fun e => JsonVal.flattenObject e "" []))) ::
            es.map (fun e =>
              rowChunk (collectHeaders (es.map (fun e => JsonVal.flattenObject e "" [])))
                (JsonVal.flattenObject e "" [])),
          none⟩) := by
  constructor
  · intro parse c1 c2 h
    simp [json2csvRun, h]
  · intro parse chunks j es hp hres hne
    have : json2csvRun parse chunks = json2csvFlushParsed j := by
      simp [json2csvRun, hp]
    rw [this, flushParsed_arr j es hres hne]
    simp only [emitCsv, List.map_map]
    rfl

/-- C5 witness: both conjuncts at a concrete parse oracle — `"ab"` split two
ways gives equal runs, and a one-record document yields header plus one
row. -/
theorem C5_chunk_invariance_witness :
    (accumulate ["ab"] = accumulate ["a", "b"] ∧
      json2csvRun
          (fun _ : String =>
            (Except.ok (JsonVal.obj [("results",
              JsonVal.arr [JsonVal.obj [("a", JsonVal.num 1)]])]) :
              Except String JsonVal))
          ["ab"] =
        json2csvRun
          (fun _ : String =>
            (Except.ok (JsonVal.obj [("results",
              JsonVal.arr [JsonVal.obj [("a", JsonVal.num 1)]])]) :
              Except String JsonVal))
          ["a", "b"]) ∧
    json2csvRun
        (fun _ : String =>
          (Except.ok (JsonVal.obj [("results",
            JsonVal.arr [JsonVal.obj [("a", JsonVal.num 1)]])]) :
            Except String JsonVal))
        ["ab"] =
      ⟨headerChunk (collectHeaders
          ([JsonVal.obj [("a", JsonVal.num 1)]].map
            (fun e => JsonVal.flattenObject e "" []))) ::
          [JsonVal.obj [("a", JsonVal.num 1)]].map (fun e =>
            rowChunk (collectHeaders
                ([JsonVal.obj [("a", JsonVal.num 1)]].map
                  (fun e => JsonVal.flattenObject e "" [])))
              (JsonVal.flattenObject e "" [])),
        none⟩ :=
  ⟨⟨rfl, C5_chunk_invariance.1 _ ["ab"] ["a", "b"] rfl⟩,
   C5_chunk_invariance.2 _ ["ab"] _ [JsonVal.obj [("a", JsonVal.num 1)]] rfl
     rfl (by simp)⟩

/-- C9: the document `\x7b"results": []\x7d` makes the flush complete
without error and push nothing — no header row and no data rows. -/
theorem C9_empty_results :
    json2csvFlushParsed (JsonVal.obj [("results", JsonVal.arr [])]) =
      ⟨[], none⟩ := rfl

end AxiosNodeStreams
